import Mathlib

/-!
Verification of the training orchestration in `Hourglass/tensorflow/train.py`
(stacked-hourglass pose network trainer).

Modelling conventions:
* Python floats are modelled as `ℚ`; `math.inf` is modelled as `⊤ : WithTop ℚ`.
* A tensor is modelled as a list of its last-axis rows (`List (List ℚ)`);
  `tf.keras.losses.MeanSquaredError(reduction=NONE)` averages the squared
  differences over the last axis, yielding one scalar per row.
* A distributed dataset is modelled as the list, batch by batch, of the
  per-replica scalar losses the step function produces on that batch;
  `strategy.reduce(ReduceOp.SUM, ...)` is the sum of that list.
* Checkpoint writes (`Trainer.save_model`) are recorded as `(epoch, loss)`
  events in the order they happen.
-/

namespace Hourglass

/-- Model of `self.loss_object = tf.keras.losses.MeanSquaredError(reduction=Reduction.NONE)`
applied to `(labels, output)`: for each row (last-axis slice) the mean of the
squared elementwise differences. -/
def loss_object (labels output : List (List ℚ)) : List ℚ :=
  (labels.zip output).map fun lo =>
    ((lo.1.zip lo.2).map fun xy => (xy.1 - xy.2) ^ 2).sum / ((lo.1.zip lo.2).length : ℚ)

/-- Model of `Trainer.compute_loss(labels, outputs)`:
`loss = 0; for output in outputs: loss += reduce_sum(loss_object(labels, output)) * (1/global_batch_size)`. -/
def compute_loss (global_batch_size : ℚ) (labels : List (List ℚ))
    (outputs : List (List (List ℚ))) : ℚ :=
  outputs.foldl
    (fun loss output => loss + (loss_object labels output).sum * (1 / global_batch_size)) 0

/-- The model together with the autodiff and optimizer primitives `train_step`
uses, abstracted: `call params training images` is `self.model(images, training=...)`,
`gradient` is `tape.gradient`, `apply_gradients` is `self.optimizer.apply_gradients`
(returning updated parameters and optimizer slots). -/
structure ModelEnv where
  call : List ℚ → Bool → List ℚ → List (List (List ℚ))
  gradient : List ℚ → ℚ → List ℚ
  apply_gradients : List ℚ → List ℚ → List ℚ → List ℚ × List ℚ

/-- The mutable state `train_step` touches: `self.model.trainable_variables`
and the optimizer's internal slots. -/
structure ModelState where
  trainable_variables : List ℚ
  optimizer_slots : List ℚ
deriving DecidableEq

/-- Model of `Trainer.train_step(inputs)`: forward pass in training mode, loss via
`compute_loss`, gradients, one optimizer update; returns the scalar loss and
the mutated model/optimizer state. -/
def train_step (env : ModelEnv) (global_batch_size : ℚ) (st : ModelState)
    (images : List ℚ) (labels : List (List ℚ)) : ℚ × ModelState :=
  let outputs := env.call st.trainable_variables true images
  let loss := compute_loss global_batch_size labels outputs
  let grads := env.gradient st.trainable_variables loss
  let updated := env.apply_gradients grads st.trainable_variables st.optimizer_slots
  (loss, ⟨updated.1, updated.2⟩)

/-- Model of `Trainer.val_step(inputs)`: forward pass with `training=False`, loss via
`compute_loss`; the body contains no assignment to model or optimizer state,
so the state component is returned unchanged. -/
def val_step (env : ModelEnv) (global_batch_size : ℚ) (st : ModelState)
    (images : List ℚ) (labels : List (List ℚ)) : ℚ × ModelState :=
  let logits := env.call st.trainable_variables false images
  let loss := compute_loss global_batch_size labels logits
  (loss, st)

/-- Model of `distributed_train_epoch(dataset)` inside `Trainer.run`: iterate the
batches, reduce the per-replica losses of each batch with `ReduceOp.SUM`,
accumulate `total_loss` and `num_train_batches`; returns
`(total_loss, num_train_batches)`. Each element of `dataset` is the list of
per-replica losses for one batch. -/
def distributed_train_epoch (dataset : List (List ℚ)) : ℚ × ℕ :=
  dataset.foldl
    (fun acc one_batch =>
      let batch_loss := one_batch.sum
      (acc.1 + batch_loss, acc.2 + 1)) (0, 0)

/-- Model of `distributed_val_epoch(dataset)` inside `Trainer.run`: same accumulation
as the train epoch, with the validation step supplying the per-replica losses. -/
def distributed_val_epoch (dataset : List (List ℚ)) : ℚ × ℕ :=
  dataset.foldl
    (fun acc one_batch =>
      let batch_loss := one_batch.sum
      (acc.1 + batch_loss, acc.2 + 1)) (0, 0)

/-- The mean loss `total_loss / num_batches` computed by `Trainer.run` after
an epoch. The code divides unconditionally; on zero batches the float division
`0.0 / 0.0` yields NaN, modelled here as `none`. -/
def epoch_mean_loss (dataset : List (List ℚ)) : Option ℚ :=
  let r := distributed_val_epoch dataset
  if r.2 = 0 then none else some (r.1 / (r.2 : ℚ))

/-- Helper: unfolding the epoch accumulator over the whole dataset. -/
lemma epoch_foldl (dataset : List (List ℚ)) (acc : ℚ × ℕ) :
    dataset.foldl
      (fun acc one_batch =>
        let batch_loss := one_batch.sum
        (acc.1 + batch_loss, acc.2 + 1)) acc
      = (acc.1 + (dataset.map List.sum).sum, acc.2 + dataset.length) := by
  induction dataset generalizing acc with
  | nil => simp
  | cons b bs ih => simp [ih, add_assoc, add_comm, add_left_comm]

lemma distributed_train_epoch_eq (dataset : List (List ℚ)) :
    distributed_train_epoch dataset = ((dataset.map List.sum).sum, dataset.length) := by
  simp [distributed_train_epoch, epoch_foldl]

lemma distributed_val_epoch_eq (dataset : List (List ℚ)) :
    distributed_val_epoch dataset = ((dataset.map List.sum).sum, dataset.length) := by
  simp [distributed_val_epoch, epoch_foldl]

/-- The mutable `Trainer` fields that drive the epoch loop, plus the recorded
`save_model` events. `optimizer_learning_rate` models
`self.optimizer.learning_rate`, which `__init__` sets to the initial rate and
`lr_decay` reassigns at the end of every call. -/
structure TrainerState where
  current_learning_rate : ℚ
  optimizer_learning_rate : ℚ
  last_val_loss : WithTop ℚ
  lowest_val_loss : WithTop ℚ
  patience_count : ℕ
  max_patience : ℕ
  saves : List (ℕ × WithTop ℚ)
deriving DecidableEq

/-- The state set up by `Trainer.__init__`: `current_learning_rate =
initial_learning_rate`, `last_val_loss = lowest_val_loss = math.inf`,
`patience_count = 0`, `max_patience = 5`, no checkpoint written yet. -/
def TrainerState.init (initial_learning_rate : ℚ) : TrainerState where
  current_learning_rate := initial_learning_rate
  optimizer_learning_rate := initial_learning_rate
  last_val_loss := ⊤
  lowest_val_loss := ⊤
  patience_count := 0
  max_patience := 5
  saves := []

/-- Model of `Trainer.lr_decay()`: if `patience_count >= max_patience` divide the
learning rate by 5 and reset the counter, elif `last_val_loss ==
lowest_val_loss` reset the counter; then increment the counter and assign
`current_learning_rate` to the optimizer. -/
def lr_decay (st : TrainerState) : TrainerState :=
  let st1 :=
    if st.max_patience ≤ st.patience_count then
      { st with current_learning_rate := st.current_learning_rate / 5, patience_count := 0 }
    else if st.last_val_loss = st.lowest_val_loss then
      { st with patience_count := 0 }
    else st
  let st2 := { st1 with patience_count := st1.patience_count + 1 }
  { st2 with optimizer_learning_rate := st2.current_learning_rate }

/-- One iteration of the `for epoch in range(start_epoch, epochs + 1)` loop in
`Trainer.run`: call `lr_decay`, run the train and validation epochs, and if
`val_loss < lowest_val_loss` call `save_model(epoch, val_loss)` and update
`lowest_val_loss`; finally set `last_val_loss = val_loss`. The validation mean
loss of each epoch is supplied by `v` (it abstracts the dataset contents and
the evolving model weights); the train epoch only feeds logging and does not
touch any field of this state. -/
def run_epoch (v : ℕ → ℚ) (st : TrainerState) (epoch : ℕ) : TrainerState :=
  let st := lr_decay st
  let val_loss : WithTop ℚ := (v epoch : ℚ)
  let st :=
    if val_loss < st.lowest_val_loss then
      { st with saves := st.saves ++ [(epoch, val_loss)], lowest_val_loss := val_loss }
    else st
  { st with last_val_loss := val_loss }

/-- The epoch numbers visited by `range(start_epoch, epochs + 1)`. -/
def epoch_range (start_epoch epochs : ℕ) : List ℕ :=
  List.range' start_epoch (epochs + 1 - start_epoch)

/-- The epoch loop of `Trainer.run` folded from a given state. -/
def run_loop (v : ℕ → ℚ) (st : TrainerState) (epochs_list : List ℕ) : TrainerState :=
  epochs_list.foldl (run_epoch v) st

/-- Model of `Trainer.run`: the epoch loop from the `__init__` state, followed by the
unconditional `self.save_model(self.epochs, self.last_val_loss)`. -/
def Trainer.run (v : ℕ → ℚ) (initial_learning_rate : ℚ)
    (start_epoch epochs : ℕ) : TrainerState :=
  let st := run_loop v (TrainerState.init initial_learning_rate) (epoch_range start_epoch epochs)
  { st with saves := st.saves ++ [(epochs, st.last_val_loss)] }

/-- The state entering epoch `e` of a run: the loop folded over the epochs
`start_epoch, ..., e - 1`. Its `lowest_val_loss` field is the value "observed
before epoch `e`". -/
def state_before (v : ℕ → ℚ) (initial_learning_rate : ℚ)
    (start_epoch e : ℕ) : TrainerState :=
  run_loop v (TrainerState.init initial_learning_rate) (List.range' start_epoch (e - start_epoch))

lemma lr_decay_lowest (st : TrainerState) :
    (lr_decay st).lowest_val_loss = st.lowest_val_loss := by
  simp only [lr_decay]
  split <;> [skip; split] <;> rfl

lemma lr_decay_last (st : TrainerState) :
    (lr_decay st).last_val_loss = st.last_val_loss := by
  simp only [lr_decay]
  split <;> [skip; split] <;> rfl

lemma lr_decay_saves (st : TrainerState) :
    (lr_decay st).saves = st.saves := by
  simp only [lr_decay]
  split <;> [skip; split] <;> rfl

lemma lr_decay_max_patience (st : TrainerState) :
    (lr_decay st).max_patience = st.max_patience := by
  simp only [lr_decay]
  split <;> [skip; split] <;> rfl

lemma run_epoch_lowest (v : ℕ → ℚ) (st : TrainerState) (e : ℕ) :
    (run_epoch v st e).lowest_val_loss = min st.lowest_val_loss ((v e : ℚ) : WithTop ℚ) := by
  simp only [run_epoch, lr_decay_lowest]
  split
  · rename_i h
    simp [min_eq_right (le_of_lt h)]
  · rename_i h
    simp [lr_decay_lowest, min_eq_left (not_lt.mp h)]

lemma run_epoch_last (v : ℕ → ℚ) (st : TrainerState) (e : ℕ) :
    (run_epoch v st e).last_val_loss = ((v e : ℚ) : WithTop ℚ) := rfl

lemma run_epoch_saves (v : ℕ → ℚ) (st : TrainerState) (e : ℕ) :
    (run_epoch v st e).saves =
      st.saves ++
        (if ((v e : ℚ) : WithTop ℚ) < st.lowest_val_loss
          then [(e, ((v e : ℚ) : WithTop ℚ))] else []) := by
  simp only [run_epoch, lr_decay_lowest]
  split <;> rename_i h <;> simp [lr_decay_saves, h]

lemma run_loop_nil (v : ℕ → ℚ) (st : TrainerState) : run_loop v st [] = st := rfl

lemma run_loop_cons (v : ℕ → ℚ) (st : TrainerState) (e : ℕ) (es : List ℕ) :
    run_loop v st (e :: es) = run_loop v (run_epoch v st e) es := rfl

lemma run_loop_append (v : ℕ → ℚ) (st : TrainerState) (l₁ l₂ : List ℕ) :
    run_loop v st (l₁ ++ l₂) = run_loop v (run_loop v st l₁) l₂ := by
  simp [run_loop, List.foldl_append]

/-- Folding the epoch loop only appends to the save log, and every appended
save is tagged with one of the visited epoch numbers. -/
lemma run_loop_saves_decomp (v : ℕ → ℚ) (es : List ℕ) :
    ∀ st : TrainerState, ∃ t : List (ℕ × WithTop ℚ),
      (run_loop v st es).saves = st.saves ++ t ∧ ∀ p ∈ t, p.1 ∈ es := by
  induction es with
  | nil =>
    exact fun st => ⟨[], by simp [run_loop_nil], fun p hp => absurd hp (List.not_mem_nil p)⟩
  | cons e es ih =>
    intro st
    obtain ⟨t, ht, hmem⟩ := ih (run_epoch v st e)
    set w := if ((v e : ℚ) : WithTop ℚ) < st.lowest_val_loss
        then [(e, ((v e : ℚ) : WithTop ℚ))] else [] with hw
    refine ⟨w ++ t, ?_, ?_⟩
    · rw [run_loop_cons, ht, run_epoch_saves, ← hw, List.append_assoc]
    · intro p hp
      rcases List.mem_append.mp hp with h | h
      · have hpe : p.1 = e := by
          rw [hw] at h
          split at h
          · rw [List.mem_singleton] at h
            rw [h]
          · exact absurd h (List.not_mem_nil p)
        rw [hpe]
        exact List.mem_cons_self e es
      · exact List.mem_cons_of_mem e (hmem p h)

/-- Folding the epoch loop never increases `lowest_val_loss`. -/
lemma run_loop_lowest_le (v : ℕ → ℚ) (es : List ℕ) :
    ∀ st : TrainerState, (run_loop v st es).lowest_val_loss ≤ st.lowest_val_loss := by
  induction es with
  | nil => exact fun st => le_refl _
  | cons e es ih =>
    intro st
    calc (run_loop v (run_epoch v st e) es).lowest_val_loss
        ≤ (run_epoch v st e).lowest_val_loss := ih _
      _ ≤ st.lowest_val_loss := by
          rw [run_epoch_lowest]
          exact min_le_left _ _

/-- After a loop ending with epoch `e`, `last_val_loss` is epoch `e`'s
validation loss. -/
lemma run_loop_last_concat (v : ℕ → ℚ) (st : TrainerState) (es : List ℕ) (e : ℕ) :
    (run_loop v st (es ++ [e])).last_val_loss = ((v e : ℚ) : WithTop ℚ) := by
  rw [run_loop_append]
  exact run_epoch_last v (run_loop v st es) e

/-- Splitting the visited epoch range `start_epoch, ..., epochs` around a
member epoch `e`. -/
lemma epoch_range_decomp (start_epoch epochs e : ℕ)
    (h1 : start_epoch ≤ e) (h2 : e ≤ epochs) :
    epoch_range start_epoch epochs
      = List.range' start_epoch (e - start_epoch)
          ++ e :: List.range' (e + 1) (epochs - e) := by
  rw [epoch_range]
  have h3 : epochs + 1 - start_epoch = ((epochs - e) + 1) + (e - start_epoch) := by omega
  have h4 : start_epoch + (e - start_epoch) = e := by omega
  rw [h3, ← List.range'_append_1 start_epoch (e - start_epoch) ((epochs - e) + 1), h4,
    List.range'_succ]

/-- When the patience threshold is not reached and the equality branch does
not fire, `lr_decay` only increments the counter and refreshes the optimizer
learning rate. -/
lemma lr_decay_no_trigger (st : TrainerState) (hp : st.patience_count < st.max_patience)
    (hne : st.last_val_loss ≠ st.lowest_val_loss) :
    lr_decay st = { st with patience_count := st.patience_count + 1,
                            optimizer_learning_rate := st.current_learning_rate } := by
  simp only [lr_decay]
  rw [if_neg (not_le.mpr hp), if_neg hne]

/-- When the patience threshold is reached, `lr_decay` divides the learning
rate by 5 and leaves the counter at `0 + 1 = 1`. -/
lemma lr_decay_trigger (st : TrainerState) (hp : st.max_patience ≤ st.patience_count) :
    lr_decay st = { st with current_learning_rate := st.current_learning_rate / 5,
                            patience_count := 1,
                            optimizer_learning_rate := st.current_learning_rate / 5 } := by
  simp only [lr_decay]
  rw [if_pos hp]

/-- As long as the counter stays below the threshold and the equality branch
never fires, `k` consecutive `lr_decay` calls add `k` to the counter and keep
the learning rate unchanged. -/
lemma lr_decay_iterates (st : TrainerState) (hne : st.last_val_loss ≠ st.lowest_val_loss) :
    ∀ k, 1 ≤ k → st.patience_count + k ≤ st.max_patience →
      lr_decay^[k] st = { st with patience_count := st.patience_count + k,
                                  optimizer_learning_rate := st.current_learning_rate } := by
  intro k
  induction k with
  | zero => omega
  | succ k ih =>
    intro _ hk
    rcases Nat.eq_zero_or_pos k with rfl | hk1
    · rw [Function.iterate_one]
      exact lr_decay_no_trigger st (by omega) hne
    · rw [Function.iterate_succ_apply', ih hk1 (by omega)]
      exact lr_decay_no_trigger _ (by show st.patience_count + k < st.max_patience; omega) hne

/-- Unfolding the `loss +=` accumulator of `compute_loss`. -/
lemma foldl_add_map (f : List (List ℚ) → ℚ) (c : ℚ) (outputs : List (List (List ℚ)))
    (a : ℚ) :
    outputs.foldl (fun loss output => loss + f output * c) a
      = a + (outputs.map f).sum * c := by
  induction outputs generalizing a with
  | nil => simp
  | cons o os ih =>
    rw [List.foldl_cons, ih]
    ring_nf
    rw [List.map_cons, List.sum_cons]
    ring

/-- Value of `compute_loss`: the per-stage sums of the elementwise MSE, summed over
stages and divided by the global batch size. -/
lemma compute_loss_eq (B : ℚ) (labels : List (List ℚ)) (outputs : List (List (List ℚ))) :
    compute_loss B labels outputs
      = (outputs.map fun o => (loss_object labels o).sum).sum / B := by
  rw [compute_loss, foldl_add_map (fun o => (loss_object labels o).sum) (1 / B), zero_add,
    mul_one_div]

/-- Invariant of the epoch loop on epochs `1, ..., k` under a strictly
decreasing validation-loss sequence: every epoch is a new minimum, so every
epoch checkpoints, and `lowest_val_loss` tracks the latest loss. -/
lemma run_loop_strict_decrease (v : ℕ → ℚ) (lr : ℚ) (N : ℕ)
    (hdec : ∀ k, 1 ≤ k → k < N → v (k + 1) < v k) :
    ∀ k, k ≤ N →
      (run_loop v (TrainerState.init lr) (List.range' 1 k)).saves.length = k ∧
      (1 ≤ k → (run_loop v (TrainerState.init lr) (List.range' 1 k)).lowest_val_loss
          = ((v k : ℚ) : WithTop ℚ)) ∧
      (k = 0 → (run_loop v (TrainerState.init lr) (List.range' 1 k)).lowest_val_loss = ⊤) := by
  intro k
  induction k with
  | zero =>
    exact fun _ => ⟨rfl, fun h => absurd h (by omega), fun _ => rfl⟩
  | succ k ih =>
    intro hk
    obtain ⟨hlen, hlow, hlow0⟩ := ih (by omega)
    have hconcat : List.range' 1 (k + 1) = List.range' 1 k ++ [k + 1] := by
      rw [List.range'_1_concat, Nat.add_comm]
    have hstep : run_loop v (TrainerState.init lr) (List.range' 1 (k + 1))
        = run_epoch v (run_loop v (TrainerState.init lr) (List.range' 1 k)) (k + 1) := by
      rw [hconcat, run_loop_append]
      rfl
    have hfired : ((v (k + 1) : ℚ) : WithTop ℚ)
        < (run_loop v (TrainerState.init lr) (List.range' 1 k)).lowest_val_loss := by
      rcases Nat.eq_zero_or_pos k with rfl | hk1
      · rw [hlow0 rfl]
        exact WithTop.coe_lt_top _
      · rw [hlow hk1]
        exact_mod_cast hdec k hk1 (by omega)
    refine ⟨?_, fun _ => ?_, fun h => absurd h (Nat.succ_ne_zero k)⟩
    · rw [hstep, run_epoch_saves, if_pos hfired, List.length_append, hlen]
      rfl
    · rw [hstep, run_epoch_lowest, min_eq_right (le_of_lt hfired)]

/-- Invariant of the epoch loop on epochs `1, ..., k` under a strictly
increasing validation-loss sequence: only epoch 1 improves on the initial
`+∞`, so only epoch 1 checkpoints. -/
lemma run_loop_strict_increase (v : ℕ → ℚ) (lr : ℚ) (N : ℕ)
    (hinc : ∀ k, 1 ≤ k → k < N → v k < v (k + 1)) :
    ∀ k, 1 ≤ k → k ≤ N →
      (run_loop v (TrainerState.init lr) (List.range' 1 k)).saves
          = [(1, ((v 1 : ℚ) : WithTop ℚ))] ∧
      (run_loop v (TrainerState.init lr) (List.range' 1 k)).lowest_val_loss
          = ((v 1 : ℚ) : WithTop ℚ) ∧
      v 1 ≤ v k := by
  intro k
  induction k with
  | zero => exact fun h => absurd h (by omega)
  | succ k ih =>
    intro _ hk
    rcases Nat.eq_zero_or_pos k with rfl | hk1
    · have hone : run_loop v (TrainerState.init lr) (List.range' 1 1)
          = run_epoch v (TrainerState.init lr) 1 := rfl
      have htop : ((v 1 : ℚ) : WithTop ℚ) < (TrainerState.init lr).lowest_val_loss :=
        WithTop.coe_lt_top _
      refine ⟨?_, ?_, le_refl _⟩
      · rw [hone, run_epoch_saves, if_pos htop]
        rfl
      · rw [hone, run_epoch_lowest]
        exact min_eq_right le_top
    · obtain ⟨hsv, hlow, hle⟩ := ih hk1 (by omega)
      have hmono : v 1 ≤ v (k + 1) := le_of_lt (lt_of_le_of_lt hle (hinc k hk1 (by omega)))
      have hnot : ¬ ((v (k + 1) : ℚ) : WithTop ℚ)
          < (run_loop v (TrainerState.init lr) (List.range' 1 k)).lowest_val_loss := by
        rw [hlow]
        exact not_lt.mpr (by exact_mod_cast hmono)
      have hconcat : List.range' 1 (k + 1) = List.range' 1 k ++ [k + 1] := by
        rw [List.range'_1_concat, Nat.add_comm]
      have hstep : run_loop v (TrainerState.init lr) (List.range' 1 (k + 1))
          = run_epoch v (run_loop v (TrainerState.init lr) (List.range' 1 k)) (k + 1) := by
        rw [hconcat, run_loop_append]
        rfl
      refine ⟨?_, ?_, hmono⟩
      · rw [hstep, run_epoch_saves, if_neg hnot, List.append_nil, hsv]
      · rw [hstep, run_epoch_lowest, min_eq_left (not_lt.mp hnot), hlow]

/-- C2: from `patience_count = 0` and `max_patience = 5`, five consecutive
`lr_decay` calls in which `last_val_loss` never equals `lowest_val_loss` leave
the learning rate unchanged and the counter at 5; the sixth call divides the
learning rate by 5 and leaves the counter at 1 (reset to 0, then incremented);
and every call ends by assigning `current_learning_rate` to the optimizer's
learning rate. -/
theorem lr_decay_sixth_call_divides (st : TrainerState) (hp : st.patience_count = 0)
    (hmax : st.max_patience = 5) (hne : st.last_val_loss ≠ st.lowest_val_loss) :
    (lr_decay^[5] st).current_learning_rate = st.current_learning_rate ∧
    (lr_decay^[5] st).patience_count = 5 ∧
    (lr_decay^[6] st).current_learning_rate = st.current_learning_rate / 5 ∧
    (lr_decay^[6] st).patience_count = 1 ∧
    (∀ s : TrainerState,
        (lr_decay s).optimizer_learning_rate = (lr_decay s).current_learning_rate) := by
  have h5 : lr_decay^[5] st
      = { st with patience_count := st.patience_count + 5,
                  optimizer_learning_rate := st.current_learning_rate } :=
    lr_decay_iterates st hne 5 (by omega) (by omega)
  have h6 : lr_decay^[6] st = lr_decay (lr_decay^[5] st) :=
    Function.iterate_succ_apply' lr_decay 5 st
  have htrig : lr_decay (lr_decay^[5] st)
      = { st with current_learning_rate := st.current_learning_rate / 5,
                  patience_count := 1,
                  optimizer_learning_rate := st.current_learning_rate / 5 } := by
    rw [h5]
    exact lr_decay_trigger _ (by show st.max_patience ≤ st.patience_count + 5; omega)
  refine ⟨?_, ?_, ?_, ?_, fun s => rfl⟩
  · rw [h5]
  · rw [h5]
    show st.patience_count + 5 = 5
    omega
  · rw [h6, htrig]
  · rw [h6, htrig]

/-- C3: `compute_loss` returns the per-stage MSE sums, summed over all output
stages and divided by the global batch size; holding labels and outputs fixed,
multiplying the global batch size by `k` multiplies the result by `1 / k`. -/
theorem compute_loss_spec (B k : ℚ) (labels : List (List ℚ))
    (outputs : List (List (List ℚ))) (_hB : 0 < B) (_hk : 0 < k) (_hR : outputs ≠ []) :
    compute_loss B labels outputs
        = (outputs.map fun o => (loss_object labels o).sum).sum / B ∧
      compute_loss (k * B) labels outputs = compute_loss B labels outputs * (1 / k) := by
  refine ⟨compute_loss_eq B labels outputs, ?_⟩
  rw [compute_loss_eq, compute_loss_eq, mul_comm k B, ← div_div, div_eq_mul_one_div]

/-- Witness for C3 at `B = 2`, `k = 3`, one output stage. -/
theorem compute_loss_spec_witness :
    (0 : ℚ) < 2 ∧ (0 : ℚ) < 3 ∧ ([[[0]]] : List (List (List ℚ))) ≠ [] ∧
      (compute_loss 2 [[1]] [[[0]]]
          = (([[[0]]] : List (List (List ℚ))).map fun o => (loss_object [[1]] o).sum).sum / 2 ∧
        compute_loss (3 * 2) [[1]] [[[0]]] = compute_loss 2 [[1]] [[[0]]] * (1 / 3)) :=
  ⟨by norm_num, by norm_num, by simp,
    compute_loss_spec 2 3 [[1]] [[[0]]] (by norm_num) (by norm_num) (by simp)⟩

/-- C4 counterexample: on a dataset yielding zero batches, both epoch
functions return `(0, 0)` normally — no error of any kind is raised (the code
defines no `DataExhaustionError`) — and the subsequent mean-loss division is
`0.0 / 0.0`, i.e. NaN, modelled as `none`. -/
theorem zero_batches_return_normally :
    distributed_train_epoch [] = (0, 0) ∧ distributed_val_epoch [] = (0, 0) ∧
      epoch_mean_loss [] = none :=
  ⟨rfl, rfl, rfl⟩

/-- C4 amended: the returned `num_batches` equals the number of batches the
dataset yielded; on a zero-batch dataset the epoch functions return totals and
counts of zero without raising, and the epoch mean loss is the NaN of
`0.0 / 0.0` (modelled as `none`) rather than an error. -/
theorem epoch_batch_count :
    (∀ dataset : List (List ℚ),
        (distributed_train_epoch dataset).2 = dataset.length ∧
        (distributed_val_epoch dataset).2 = dataset.length) ∧
      epoch_mean_loss [] = none := by
  refine ⟨fun dataset => ⟨?_, ?_⟩, rfl⟩
  · rw [distributed_train_epoch_eq]
  · rw [distributed_val_epoch_eq]

/-- C5: each batch contributes the sum — not the mean — of its per-replica
losses to the accumulated epoch loss, and a single batch whose two replicas
report `0.4` and `0.6` yields a reduced batch loss of `1`. -/
theorem replica_losses_summed :
    (∀ (dataset : List (List ℚ)) (one_batch : List ℚ),
        (distributed_train_epoch (dataset ++ [one_batch])).1
            = (distributed_train_epoch dataset).1 + one_batch.sum ∧
        (distributed_val_epoch (dataset ++ [one_batch])).1
            = (distributed_val_epoch dataset).1 + one_batch.sum) ∧
      (distributed_train_epoch [[2/5, 3/5]]).1 = 1 := by
  refine ⟨fun dataset one_batch => ⟨?_, ?_⟩, ?_⟩
  · simp [distributed_train_epoch_eq]
  · simp [distributed_val_epoch_eq]
  · rw [distributed_train_epoch_eq]
    norm_num

/-- C7: `lowest_val_loss` is initialized to `+∞` and no step of the session
ever increases it: `lr_decay` preserves it, each loop iteration can only lower
it, any sequence of iterations can only lower it, and the final save leaves
the loop's value in place. -/
theorem lowest_val_loss_monotone (v : ℕ → ℚ) (lr : ℚ) :
    (TrainerState.init lr).lowest_val_loss = ⊤ ∧
    (∀ st : TrainerState, (lr_decay st).lowest_val_loss = st.lowest_val_loss) ∧
    (∀ (st : TrainerState) (e : ℕ),
        (run_epoch v st e).lowest_val_loss ≤ st.lowest_val_loss) ∧
    (∀ (st : TrainerState) (es : List ℕ),
        (run_loop v st es).lowest_val_loss ≤ st.lowest_val_loss) ∧
    (∀ start_epoch epochs : ℕ,
        (Trainer.run v lr start_epoch epochs).lowest_val_loss
          = (run_loop v (TrainerState.init lr) (epoch_range start_epoch epochs)).lowest_val_loss) := by
  refine ⟨rfl, lr_decay_lowest, fun st e => ?_, fun st es => run_loop_lowest_le v es st,
    fun s e => rfl⟩
  rw [run_epoch_lowest]
  exact min_le_left _ _

/-- C9: `val_step` returns the loss of the inference-mode (`training=False`)
forward pass and leaves the trainable variables and the optimizer slots
exactly as they were. -/
theorem val_step_frame (env : ModelEnv) (B : ℚ) (st : ModelState)
    (images : List ℚ) (labels : List (List ℚ)) :
    (val_step env B st images labels).2 = st ∧
    (val_step env B st images labels).1
        = compute_loss B labels (env.call st.trainable_variables false images) :=
  ⟨rfl, rfl⟩

/-- C1: during a run over epochs `start_epoch, ..., epochs`, a checkpoint save
tagged with epoch `e` happens iff epoch `e`'s validation loss is strictly
below the `lowest_val_loss` observed before epoch `e`, or `e` is the final
epoch number (for which the unconditional post-loop save always fires). -/
theorem checkpoint_saved_iff (v : ℕ → ℚ) (lr : ℚ) (start_epoch epochs e : ℕ)
    (h1 : start_epoch ≤ e) (h2 : e ≤ epochs) :
    (∃ q, (e, q) ∈ (Trainer.run v lr start_epoch epochs).saves) ↔
      (((v e : ℚ) : WithTop ℚ) < (state_before v lr start_epoch e).lowest_val_loss
        ∨ e = epochs) := by
  have hrange := epoch_range_decomp start_epoch epochs e h1 h2
  obtain ⟨t, ht, htags⟩ := run_loop_saves_decomp v (List.range' (e + 1) (epochs - e))
      (run_epoch v (state_before v lr start_epoch e) e)
  obtain ⟨s, hs, hstags⟩ := run_loop_saves_decomp v (List.range' start_epoch (e - start_epoch))
      (TrainerState.init lr)
  have hsB : (state_before v lr start_epoch e).saves = s := by
    rw [state_before, hs]
    rfl
  have hC : run_loop v (TrainerState.init lr) (epoch_range start_epoch epochs)
      = run_loop v (run_epoch v (state_before v lr start_epoch e) e)
          (List.range' (e + 1) (epochs - e)) := by
    rw [hrange, run_loop_append]
    rfl
  have hrunsaves : (Trainer.run v lr start_epoch epochs).saves
      = (run_loop v (TrainerState.init lr) (epoch_range start_epoch epochs)).saves
        ++ [(epochs,
              (run_loop v (TrainerState.init lr)
                (epoch_range start_epoch epochs)).last_val_loss)] := rfl
  constructor
  · rintro ⟨q, hq⟩
    rw [hrunsaves, hC, ht, run_epoch_saves, hsB] at hq
    rcases List.mem_append.mp hq with hq | hq
    · rcases List.mem_append.mp hq with hq | hq
      · rcases List.mem_append.mp hq with hq | hq
        · have he : e ∈ List.range' start_epoch (e - start_epoch) := hstags _ hq
          rw [List.mem_range'_1] at he
          omega
        · by_cases hcond : ((v e : ℚ) : WithTop ℚ)
              < (state_before v lr start_epoch e).lowest_val_loss
          · exact Or.inl hcond
          · rw [if_neg hcond] at hq
            exact absurd hq (List.not_mem_nil _)
      · have he : e ∈ List.range' (e + 1) (epochs - e) := htags _ hq
        rw [List.mem_range'_1] at he
        omega
    · rw [List.mem_singleton] at hq
      exact Or.inr (congrArg Prod.fst hq)
  · rintro (hcond | rfl)
    · refine ⟨((v e : ℚ) : WithTop ℚ), ?_⟩
      rw [hrunsaves, hC, ht, run_epoch_saves, if_pos hcond]
      simp
    · exact ⟨(run_loop v (TrainerState.init lr) (epoch_range start_epoch e)).last_val_loss,
        by rw [hrunsaves]; simp⟩

/-- Witness for C1 at a concrete run: two epochs, `e = 1`. -/
theorem checkpoint_saved_iff_witness :
    1 ≤ 1 ∧ 1 ≤ 2 ∧
      ((∃ q, (1, q) ∈ (Trainer.run (fun n => 1 / (n + 1)) 1 1 2).saves) ↔
        (((1 / (1 + 1) : ℚ) : WithTop ℚ)
            < (state_before (fun n => 1 / (n + 1)) 1 1 1).lowest_val_loss
          ∨ 1 = 2)) :=
  ⟨le_refl 1, by norm_num,
    checkpoint_saved_iff (fun n => 1 / (n + 1)) 1 1 2 1 (le_refl 1) (by norm_num)⟩

/-- Witness for C2 at a concrete state with `patience_count = 0`,
`max_patience = 5` and `last_val_loss = ⊤ ≠ 1 = lowest_val_loss`. -/
theorem lr_decay_sixth_call_divides_witness :
    (⟨1, 1, ⊤, (1 : ℚ), 0, 5, []⟩ : TrainerState).patience_count = 0 ∧
    (⟨1, 1, ⊤, (1 : ℚ), 0, 5, []⟩ : TrainerState).max_patience = 5 ∧
    (⟨1, 1, ⊤, (1 : ℚ), 0, 5, []⟩ : TrainerState).last_val_loss
        ≠ (⟨1, 1, ⊤, (1 : ℚ), 0, 5, []⟩ : TrainerState).lowest_val_loss ∧
    ((lr_decay^[5] (⟨1, 1, ⊤, (1 : ℚ), 0, 5, []⟩ : TrainerState)).current_learning_rate
          = (⟨1, 1, ⊤, (1 : ℚ), 0, 5, []⟩ : TrainerState).current_learning_rate ∧
      (lr_decay^[5] (⟨1, 1, ⊤, (1 : ℚ), 0, 5, []⟩ : TrainerState)).patience_count = 5 ∧
      (lr_decay^[6] (⟨1, 1, ⊤, (1 : ℚ), 0, 5, []⟩ : TrainerState)).current_learning_rate
          = (⟨1, 1, ⊤, (1 : ℚ), 0, 5, []⟩ : TrainerState).current_learning_rate / 5 ∧
      (lr_decay^[6] (⟨1, 1, ⊤, (1 : ℚ), 0, 5, []⟩ : TrainerState)).patience_count = 1 ∧
      (∀ s : TrainerState,
          (lr_decay s).optimizer_learning_rate = (lr_decay s).current_learning_rate)) :=
  ⟨rfl, rfl, by simp,
    lr_decay_sixth_call_divides ⟨1, 1, ⊤, (1 : ℚ), 0, 5, []⟩ rfl rfl (by simp)⟩

/-- C6: over a run of epochs `1, ..., N`, a strictly decreasing validation-loss
sequence produces one improvement checkpoint per epoch plus the final
unconditional one (`N + 1` saves in total), while a strictly increasing
sequence produces the single improvement checkpoint of epoch 1 plus the final
one (2 saves in total). -/
theorem checkpoint_counts (lr : ℚ) (N : ℕ) (hN : 1 ≤ N) :
    (∀ v : ℕ → ℚ, (∀ k, 1 ≤ k → k < N → v (k + 1) < v k) →
        (run_loop v (TrainerState.init lr) (epoch_range 1 N)).saves.length = N ∧
        (Trainer.run v lr 1 N).saves.length = N + 1) ∧
    (∀ v : ℕ → ℚ, (∀ k, 1 ≤ k → k < N → v k < v (k + 1)) →
        (run_loop v (TrainerState.init lr) (epoch_range 1 N)).saves
            = [(1, ((v 1 : ℚ) : WithTop ℚ))] ∧
        (Trainer.run v lr 1 N).saves.length = 2) := by
  have hr : epoch_range 1 N = List.range' 1 N := by
    rw [epoch_range, Nat.succ_sub_one]
  constructor
  · intro v hdec
    obtain ⟨hlen, -, -⟩ := run_loop_strict_decrease v lr N hdec N (le_refl N)
    rw [hr]
    refine ⟨hlen, ?_⟩
    show ((run_loop v (TrainerState.init lr) (epoch_range 1 N)).saves ++ _).length = N + 1
    rw [hr, List.length_append, hlen]
    rfl
  · intro v hinc
    obtain ⟨hsv, -, -⟩ := run_loop_strict_increase v lr N hinc N hN (le_refl N)
    rw [hr]
    refine ⟨hsv, ?_⟩
    show ((run_loop v (TrainerState.init lr) (epoch_range 1 N)).saves ++ _).length = 2
    rw [hr, List.length_append, hsv]
    rfl

/-- Witness for C6 at `N = 1`. -/
theorem checkpoint_counts_witness :
    1 ≤ 1 ∧
      ((∀ v : ℕ → ℚ, (∀ k, 1 ≤ k → k < 1 → v (k + 1) < v k) →
          (run_loop v (TrainerState.init 1) (epoch_range 1 1)).saves.length = 1 ∧
          (Trainer.run v 1 1 1).saves.length = 1 + 1) ∧
        (∀ v : ℕ → ℚ, (∀ k, 1 ≤ k → k < 1 → v k < v (k + 1)) →
            (run_loop v (TrainerState.init 1) (epoch_range 1 1)).saves
                = [(1, ((v 1 : ℚ) : WithTop ℚ))] ∧
            (Trainer.run v 1 1 1).saves.length = 2)) :=
  ⟨le_refl 1, checkpoint_counts 1 1 (le_refl 1)⟩

/-- C8: whenever the loop runs at least one epoch, `Trainer.run` ends with
exactly one unconditional save appended after the loop, tagged with the final
epoch number `epochs` and with the last epoch's validation loss. -/
theorem final_save_unconditional (v : ℕ → ℚ) (lr : ℚ) (start_epoch epochs : ℕ)
    (h : start_epoch ≤ epochs) :
    (Trainer.run v lr start_epoch epochs).saves
      = (run_loop v (TrainerState.init lr) (epoch_range start_epoch epochs)).saves
        ++ [(epochs, ((v epochs : ℚ) : WithTop ℚ))] := by
  have h1 : epochs + 1 - start_epoch = (epochs - start_epoch) + 1 := by omega
  have h2 : start_epoch + (epochs - start_epoch) = epochs := by omega
  have hlast : (run_loop v (TrainerState.init lr)
        (epoch_range start_epoch epochs)).last_val_loss
      = ((v epochs : ℚ) : WithTop ℚ) := by
    rw [epoch_range, h1, List.range'_1_concat, h2, run_loop_last_concat]
  rw [show (Trainer.run v lr start_epoch epochs).saves
      = (run_loop v (TrainerState.init lr) (epoch_range start_epoch epochs)).saves
        ++ [(epochs,
              (run_loop v (TrainerState.init lr)
                (epoch_range start_epoch epochs)).last_val_loss)] from rfl, hlast]

/-- Witness for C8 at a one-epoch run. -/
theorem final_save_unconditional_witness :
    1 ≤ 1 ∧
      (Trainer.run (fun _ => 3) 1 1 1).saves
        = (run_loop (fun _ => 3) (TrainerState.init 1) (epoch_range 1 1)).saves
          ++ [(1, ((3 : ℚ) : WithTop ℚ))] :=
  ⟨le_refl 1, final_save_unconditional (fun _ => 3) 1 1 1 (le_refl 1)⟩

/-- C10: when `start_epoch > epochs` the epoch loop body never executes — the
state keeps every `__init__` field, in particular the learning rate, the
optimizer learning rate and `patience_count = 0` — yet the final unconditional
save still happens, tagged with `epochs` and with the initial
`last_val_loss = +∞`. -/
theorem run_empty_loop (v : ℕ → ℚ) (lr : ℚ) (start_epoch epochs : ℕ)
    (h : epochs < start_epoch) :
    Trainer.run v lr start_epoch epochs
      = { TrainerState.init lr with saves := [(epochs, ⊤)] } := by
  have h0 : epochs + 1 - start_epoch = 0 := by omega
  simp only [Trainer.run, epoch_range, h0, List.range'_zero, run_loop_nil]
  rfl

/-- Witness for C10 with `start_epoch = 2 > 1 = epochs`. -/
theorem run_empty_loop_witness :
    1 < 2 ∧
      Trainer.run (fun _ => 3) 1 2 1
        = { TrainerState.init 1 with saves := [(1, ⊤)] } :=
  ⟨by norm_num, run_empty_loop (fun _ => 3) 1 2 1 (by norm_num)⟩

end Hourglass
